import Mathlib

/-!
Verification development for the HQ-telephone crawler (`hq_tel_scraper.py`).

The pure algorithmic core is shallow-embedded here:
* `normalize_phone_digits` mirrors the digit normalization routine;
* the per-page candidate registry (`register` inside
  `extract_phone_candidates`) is embedded as a fold over register events;
* `load_keyword_bank` is embedded over the two term lists read from the
  keyword JSON file;
* the BFS crawl loop of `crawl_for_hq_phone` is embedded with the external
  collaborators (HTTP fetch, URL parsing / `urlparse(...).netloc`, HTML
  candidate extraction and link extraction) abstracted as a `World` record,
  and instrumented with the ordered list of URLs passed to `fetch`.

Python strings are modelled as Lean `String`; `len` is `String.length` /
`List.length`, `str.strip()` is `pyStrip` (drop whitespace at both ends),
`str.startswith(p)` is `strStartsWith` (the first `|p|` characters equal
`p`), and the regex digit class of `re.sub(r"\D", "", tel)` is modelled by
`Char.isDigit`.  Python `dict`s keep insertion order, so they are modelled
as association lists that append fresh keys at the end.
-/

/-- Model of Python `str.startswith(p)`: the first `p.length` characters of
`s` are exactly `p`. -/
def strStartsWith (s p : String) : Bool :=
  s.data.take p.data.length = p.data

/-- Model of Python `str.strip()`: remove whitespace characters from both
ends of the string. -/
def pyStrip (s : String) : String :=
  String.mk (((s.data.dropWhile Char.isWhitespace).reverse.dropWhile
    Char.isWhitespace).reverse)

/-- Embedding of `normalize_phone_digits` (src/hq_tel_scraper.py:95-104):
strip all non-digit characters (`re.sub(r"\D", "", tel)`); if the digit
string starts with `"81"` and has more than 10 digits, replace the leading
`"81"` with `"0"`; reject (return `none`) when the final digit string is
shorter than 10 or does not start with `"0"`; otherwise return the digit
string together with the stripped original text. -/
def normalize_phone_digits (tel : String) : Option (String × String) :=
  let digits0 : String := String.mk (tel.data.filter Char.isDigit)
  let digits : String :=
    if strStartsWith digits0 "81" ∧ 10 < digits0.length then
      String.mk ('0' :: digits0.data.drop 2)
    else digits0
  if digits.length < 10 then none
  else if ¬ strStartsWith digits "0" then none
  else some (digits, pyStrip tel)

/-- One value of the per-page candidate registry of
`extract_phone_candidates` (src/hq_tel_scraper.py:109):
`{"display": ..., "is_hq": ...}`. -/
structure Entry where
  display : String
  is_hq : Bool
  deriving DecidableEq, Repr

/-- Embedding of the nested `register(tel, is_hq)` operation
(src/hq_tel_scraper.py:112-122).  The Python insertion-ordered
`registry` dict together with the `order` list is modelled as an
association list that appends fresh digit keys at the end: normalize the
raw match, discard it silently on failure, insert the key with
`is_hq = false` when new, and when this call is HQ overwrite the display
and set `is_hq` to `true` on the key's entry. -/
def registerStep (reg : List (String × Entry)) (tel : String) (is_hq : Bool) :
    List (String × Entry) :=
  match normalize_phone_digits tel with
  | none => reg
  | some (digits, display) =>
    let reg1 :=
      if reg.any (fun p => p.1 = digits) then reg
      else reg ++ [(digits, ⟨display, false⟩)]
    if is_hq then
      reg1.map (fun p => if p.1 = digits then (p.1, ⟨display, true⟩) else p)
    else reg1

/-- The sequence of `register` calls made by the sweep pass and the
targeted pass of `extract_phone_candidates`, folded over the registry.
The raw matches and their HQ classification come from the regex matcher
and BeautifulSoup, which are external; one page is therefore abstracted
as the ordered list of `(rawMatch, isHQ)` register events it produces. -/
def runRegister (reg : List (String × Entry)) (events : List (String × Bool)) :
    List (String × Entry) :=
  events.foldl (fun r e => registerStep r e.1 e.2) reg

/-- Embedding of `extract_phone_candidates`' result construction
(src/hq_tel_scraper.py:151-155): the registry in first-seen order,
projected to `(display, is_hq)` pairs. -/
def extract_phone_candidates (events : List (String × Bool)) :
    List (String × Bool) :=
  (runRegister [] events).map (fun p => (p.2.display, p.2.is_hq))

/-- The digits key `digits` is present in the registry and every entry
stored under it is marked HQ. -/
def HQmarked (reg : List (String × Entry)) (digits : String) : Prop :=
  (∃ p ∈ reg, p.1 = digits) ∧ ∀ p ∈ reg, p.1 = digits → p.2.is_hq = true

instance (reg : List (String × Entry)) (digits : String) :
    Decidable (HQmarked reg digits) := by
  unfold HQmarked; infer_instance

/-- Model of Python `str.lower()`: lower-case every character. -/
def pyLower (s : String) : String :=
  String.mk (s.data.map Char.toLower)

/-- Model of the Python set comprehension in `load_keyword_bank`
(src/hq_tel_scraper.py:78-83): keep each term whose stripped form is
non-empty (Python truthiness of `term.strip()`), and collect the stripped,
lower-cased forms as a set. -/
def prepTerms (terms : List String) : Finset String :=
  ((terms.filter (fun t => pyStrip t ≠ "")).map
    (fun t => pyLower (pyStrip t))).toFinset

/-- The keyword bank dict returned by `load_keyword_bank`
(src/hq_tel_scraper.py:87): `{"primary_terms": ..., "scan_terms": ...}`. -/
structure KeywordBank where
  primary_terms : Finset String
  scan_terms : Finset String
  deriving DecidableEq

/-- Embedding of `load_keyword_bank` (src/hq_tel_scraper.py:75-87).  The
JSON file read is external; its two string arrays `primary_terms` and
`support_terms` are the inputs.  Raising `ValueError` is modelled as
`Except.error` with the message. -/
def load_keyword_bank (primary support : List String) :
    Except String KeywordBank :=
  let primary_terms := prepTerms primary
  let support_terms := prepTerms support
  if primary_terms = ∅ then
    .error "Keyword file must define at least one primary term"
  else
    .ok ⟨primary_terms, primary_terms ∪ support_terms⟩

/-- Abstraction of one successfully fetched HTML page: the register events
its content produces in `extract_phone_candidates` are not needed at the
crawl level — `crawl_for_hq_phone` only consumes the resulting
`(display, isHQ)` pairs (`candidates`) and the resolved anchor URLs that
`extract_links` yields (`links`, in document order). -/
structure Page where
  candidates : List (String × Bool)
  links : List String

/-- The external collaborators of `crawl_for_hq_phone`: `fetch` (network,
`None` on failure / non-HTML / falsy text), `netloc` (the host component
`urlparse(url).netloc`, used both for the target domain and inside
`same_domain`), and `normalize` (`normalize_url`, `none` when it raises
`ValueError` for a missing host). -/
structure World where
  fetch : String → Option Page
  netloc : String → String
  normalize : String → Option String

/-- Embedding of `same_domain` (src/hq_tel_scraper.py:48-49): string
equality of the link's host component with the target domain. -/
def same_domain (w : World) (url domain : String) : Bool :=
  w.netloc url = domain

/-- Embedding of the per-candidate loop of `crawl_for_hq_phone`
(src/hq_tel_scraper.py:189-197): re-normalize each `(tel, is_hq)` pair,
skip it when normalization fails, record the digits in `all_numbers` when
unseen and in `hq_numbers` when HQ-classified and not already present.
Both insertion-ordered dicts are association lists appending at the end;
the result pair is `(all_numbers, hq_numbers)`. -/
def updateCrawlState (alln hqn : List (String × String)) :
    List (String × Bool) → List (String × String) × List (String × String)
  | [] => (alln, hqn)
  | (tel, is_hq) :: rest =>
    match normalize_phone_digits tel with
    | none => updateCrawlState alln hqn rest
    | some (digits, display) =>
      let alln' :=
        if alln.any (fun p => p.1 = digits) then alln
        else alln ++ [(digits, display)]
      let hqn' :=
        if is_hq ∧ ¬ hqn.any (fun p => p.1 = digits) then
          hqn ++ [(digits, display)]
        else hqn
      updateCrawlState alln' hqn' rest

/-- Embedding of the fallback decision after loop exhaustion
(src/hq_tel_scraper.py:211-217): when `all_numbers` holds exactly one
entry return its display (`next(iter(all_numbers.values()))`), otherwise
`None`. -/
def fallbackNumber (alln : List (String × String)) : Option String :=
  match alln with
  | [(_, display)] => some display
  | _ => none

/-- Embedding of the BFS loop of `crawl_for_hq_phone`
(src/hq_tel_scraper.py:177-217), instrumented with the ordered list of
URLs passed to `fetch` (the second component; it also lists, in order,
exactly the URLs added to `visited`, since the code marks a dequeued
unvisited URL visited and then immediately fetches it).  `visited` is the
Python set kept as a duplicate-free list (elements are only added after a
membership test), so `len(visited)` is its list length.  `max_pages` is a
Python `int` and may be negative, hence `Int`.  `time.sleep(delay)` has
no observable effect in the embedding and is dropped. -/
def crawlLoop (w : World) (dom : String) (max_pages : Int)
    (queue visited : List String) (hqn alln : List (String × String)) :
    Option String × List String :=
  match queue with
  | [] => (fallbackNumber alln, [])
  | current :: rest =>
    if _hbudget : (visited.length : Int) < max_pages then
      if current ∈ visited then
        crawlLoop w dom max_pages rest visited hqn alln
      else
        match w.fetch current with
        | none =>
          let r := crawlLoop w dom max_pages rest (visited ++ [current]) hqn alln
          (r.1, current :: r.2)
        | some page =>
          let st := updateCrawlState alln hqn page.candidates
          match st.2 with
          | (_, display) :: _ => (some display, [current])
          | [] =>
            let links := page.links.filter
              (fun l => same_domain w l dom && !(visited ++ [current]).contains l)
            let r := crawlLoop w dom max_pages (rest ++ links)
              (visited ++ [current]) st.2 st.1
            (r.1, current :: r.2)
    else (fallbackNumber alln, [])
termination_by ((max_pages - visited.length).toNat, queue.length)
decreasing_by
  · exact Prod.Lex.right _ (by simp)
  · exact Prod.Lex.left _ _ (by simp; omega)
  · exact Prod.Lex.left _ _ (by simp; omega)

/-- Embedding of `crawl_for_hq_phone` (src/hq_tel_scraper.py:158-217):
normalize the start URL (return `None` on `ValueError` without fetching
anything), take the target domain as the host of the normalized start
URL, and run the BFS loop from a frontier holding only the start URL.
Result: the returned `Optional[str]` paired with the fetch trace. -/
def crawl_for_hq_phone (w : World) (start_url : String) (max_pages : Int) :
    Option String × List String :=
  match w.normalize start_url with
  | none => (none, [])
  | some start => crawlLoop w (w.netloc start) max_pages [start] [] [] []

/-- Test world for the C1 witness: every URL fetches the same page with an
HQ-classified candidate and a further same-domain link. -/
def wC1 : World :=
  ⟨fun _ => some ⟨[("03-1234-5678", true)], ["https://a/x"]⟩,
   fun _ => "a", fun s => some s⟩

/-- Test world for the C6 witness: the only page links to a same-domain
URL, a `www.`-prefixed variant of the domain, and an off-domain URL. -/
def wC6 : World :=
  ⟨fun _ => some ⟨[], ["https://a/x", "https://www.a/y", "https://b/z"]⟩,
   fun u => if u = "https://www.a/y" then "www.a"
     else if u = "https://b/z" then "b" else "a",
   fun s => some s⟩

/-! ### Sanity-check evaluations -/

example : normalize_phone_digits "+81-3-1234-5678" =
    some ("0312345678", "+81-3-1234-5678") := by decide
example : normalize_phone_digits "0312345678" =
    some ("0312345678", "0312345678") := by decide
example : normalize_phone_digits "12-34" = none := by decide
example : normalize_phone_digits " 03-1234-5678 " =
    some ("0312345678", "03-1234-5678") := by decide
example : normalize_phone_digits "1234567890" = none := by decide

example : extract_phone_candidates
    [("03-1234-5678", false), ("03.1234.5678", true), ("0312345678", false)] =
    [("03.1234.5678", true)] := by decide
example : extract_phone_candidates
    [("03-1234-5678", false), ("06-9999-8888", true)] =
    [("03-1234-5678", false), ("06-9999-8888", true)] := by decide

example : (load_keyword_bank [" ", ""] ["x"]).toOption = none := by decide
example :
    let kb := (load_keyword_bank [" HQ "] ["Main", "hq"]).toOption.getD ⟨∅, ∅⟩
    (load_keyword_bank [" HQ "] ["Main", "hq"]).toOption.isSome = true ∧
      "hq" ∈ kb.primary_terms ∧ kb.primary_terms.card = 1 ∧
      "main" ∈ kb.scan_terms ∧ "hq" ∈ kb.scan_terms ∧ kb.scan_terms.card = 2 := by
  decide

/-! ### Helper lemmas about characters, stripping and digit filtering -/

lemma ws_not_digit {c : Char} (h : c.isWhitespace = true) : c.isDigit = false := by
  simp only [Char.isWhitespace, Bool.or_eq_true, decide_eq_true_eq] at h
  rcases h with ((h | h) | h) | h <;> subst h <;> decide

lemma filter_digit_dropWhile_ws (l : List Char) :
    (l.dropWhile Char.isWhitespace).filter Char.isDigit =
      l.filter Char.isDigit := by
  induction l with
  | nil => rfl
  | cons a t ih =>
    by_cases h : a.isWhitespace = true
    · rw [List.dropWhile_cons_of_pos h, ih, List.filter_cons]
      simp [ws_not_digit h]
    · rw [List.dropWhile_cons_of_neg (by simpa using h)]

lemma filter_digit_pyStrip (s : String) :
    (pyStrip s).data.filter Char.isDigit = s.data.filter Char.isDigit := by
  show (((s.data.dropWhile Char.isWhitespace).reverse.dropWhile
      Char.isWhitespace).reverse).filter Char.isDigit = _
  rw [List.filter_reverse, filter_digit_dropWhile_ws, List.filter_reverse,
    List.reverse_reverse, filter_digit_dropWhile_ws]

lemma dropWhile_dropWhile (p : Char → Bool) (l : List Char) :
    (l.dropWhile p).dropWhile p = l.dropWhile p := by
  induction l with
  | nil => rfl
  | cons a t ih =>
    by_cases h : p a = true
    · rw [List.dropWhile_cons_of_pos h]; exact ih
    · rw [List.dropWhile_cons_of_neg (by simpa using h),
        List.dropWhile_cons_of_neg (by simpa using h)]

lemma head_false_of_dropWhile_eq_self {p : Char → Bool} {a : Char}
    {t : List Char} (h : (a :: t).dropWhile p = a :: t) : p a = false := by
  by_contra hcon
  rw [Bool.not_eq_false] at hcon
  rw [List.dropWhile_cons_of_pos hcon] at h
  obtain ⟨u, hu⟩ : ∃ u, u ++ t.dropWhile p = t := by
    clear h hcon
    induction t with
    | nil => exact ⟨[], rfl⟩
    | cons b t' ih =>
      by_cases hb : p b = true
      · obtain ⟨u, hu⟩ := ih
        exact ⟨b :: u, by rw [List.dropWhile_cons_of_pos hb, List.cons_append, hu]⟩
      · exact ⟨[], by rw [List.dropWhile_cons_of_neg (by simpa using hb),
          List.nil_append]⟩
  have hlen := congrArg List.length h
  have hlen2 := congrArg List.length hu
  simp only [List.length_cons, List.length_append] at hlen hlen2
  omega

lemma dropWhile_eq_self_of_append {p : Char → Bool} {q t l : List Char}
    (hl : l.dropWhile p = l) (he : q ++ t = l) : q.dropWhile p = q := by
  cases q with
  | nil => rfl
  | cons a q' =>
    have hal : l = a :: (q' ++ t) := by rw [← he]; rfl
    subst hal
    exact List.dropWhile_cons_of_neg
      (by simp [head_false_of_dropWhile_eq_self hl])

lemma dropWhile_suffix_ex (p : Char → Bool) (l : List Char) :
    ∃ u, u ++ l.dropWhile p = l := by
  induction l with
  | nil => exact ⟨[], rfl⟩
  | cons a t ih =>
    by_cases h : p a = true
    · obtain ⟨u, hu⟩ := ih
      exact ⟨a :: u, by rw [List.dropWhile_cons_of_pos h, List.cons_append, hu]⟩
    · exact ⟨[], by rw [List.dropWhile_cons_of_neg (by simpa using h),
        List.nil_append]⟩

lemma pyStrip_idem (s : String) : pyStrip (pyStrip s) = pyStrip s := by
  unfold pyStrip
  set m := s.data.dropWhile Char.isWhitespace with hm
  set r := (m.reverse.dropWhile Char.isWhitespace).reverse with hr
  have hmm : m.dropWhile Char.isWhitespace = m := by
    rw [hm]; exact dropWhile_dropWhile _ _
  have hrm : ∃ u, r ++ u = m := by
    obtain ⟨u, hu⟩ := dropWhile_suffix_ex Char.isWhitespace m.reverse
    refine ⟨u.reverse, ?_⟩
    have := congrArg List.reverse hu
    simpa [hr] using this
  have hr1 : r.dropWhile Char.isWhitespace = r := by
    obtain ⟨u, hu⟩ := hrm
    exact dropWhile_eq_self_of_append hmm hu
  have hr2 : r.reverse.dropWhile Char.isWhitespace = r.reverse := by
    rw [hr, List.reverse_reverse]
    exact dropWhile_dropWhile _ _
  refine congrArg String.mk ?_
  rw [hr1, hr2, List.reverse_reverse]

lemma normalize_some_display {tel d disp : String}
    (h : normalize_phone_digits tel = some (d, disp)) : disp = pyStrip tel := by
  simp only [normalize_phone_digits] at h
  split at h
  all_goals
    split at h
    · exact absurd h (by simp)
    · split at h
      · exact absurd h (by simp)
      · rw [Option.some.injEq, Prod.mk.injEq] at h
        exact h.2.symm

lemma normalize_display {tel d disp : String}
    (h : normalize_phone_digits tel = some (d, disp)) :
    normalize_phone_digits disp = some (d, disp) := by
  have hdisp : disp = pyStrip tel := normalize_some_display h
  have hfilter : disp.data.filter Char.isDigit = tel.data.filter Char.isDigit := by
    rw [hdisp]; exact filter_digit_pyStrip tel
  have hstrip : pyStrip disp = pyStrip tel := by
    rw [hdisp]; exact pyStrip_idem tel
  have hsame : normalize_phone_digits disp = normalize_phone_digits tel := by
    unfold normalize_phone_digits
    rw [hfilter, hstrip]
  rw [hsame, h]

/-! ### Unfolding lemmas for the BFS loop -/

lemma crawlLoop_nil (w : World) (dom : String) (mp : Int)
    (visited : List String) (hqn alln : List (String × String)) :
    crawlLoop w dom mp [] visited hqn alln = (fallbackNumber alln, []) := by
  rw [crawlLoop.eq_def]

lemma crawlLoop_exhausted {mp : Int} {visited : List String}
    (w : World) (dom : String) (queue : List String)
    (hqn alln : List (String × String))
    (hb : ¬ ((visited.length : Int) < mp)) :
    crawlLoop w dom mp queue visited hqn alln = (fallbackNumber alln, []) := by
  rw [crawlLoop.eq_def]
  cases queue with
  | nil => rfl
  | cons c r => simp [hb]

lemma crawlLoop_visited {current : String} {visited : List String}
    (w : World) (dom : String) (mp : Int) (rest : List String)
    (hqn alln : List (String × String)) (hv : current ∈ visited) :
    crawlLoop w dom mp (current :: rest) visited hqn alln =
      crawlLoop w dom mp rest visited hqn alln := by
  by_cases hb : (visited.length : Int) < mp
  · rw [crawlLoop.eq_def]
    simp [hb, hv]
  · rw [crawlLoop_exhausted w dom _ hqn alln hb,
      crawlLoop_exhausted w dom _ hqn alln hb]

lemma crawlLoop_nofetch {w : World} {mp : Int} {current : String}
    {visited : List String} (dom : String) (rest : List String)
    (hqn alln : List (String × String))
    (hb : (visited.length : Int) < mp) (hv : current ∉ visited)
    (hf : w.fetch current = none) :
    crawlLoop w dom mp (current :: rest) visited hqn alln =
      ((crawlLoop w dom mp rest (visited ++ [current]) hqn alln).1,
        current :: (crawlLoop w dom mp rest (visited ++ [current]) hqn alln).2) := by
  rw [crawlLoop.eq_def]
  simp [hb, hv, hf]

lemma crawlLoop_hqfound {w : World} {mp : Int} {current : String}
    {visited : List String} {page : Page}
    {alln hqn alln' hqrest : List (String × String)} {d disp : String}
    (dom : String) (rest : List String)
    (hb : (visited.length : Int) < mp) (hv : current ∉ visited)
    (hf : w.fetch current = some page)
    (hupd : updateCrawlState alln hqn page.candidates =
      (alln', (d, disp) :: hqrest)) :
    crawlLoop w dom mp (current :: rest) visited hqn alln =
      (some disp, [current]) := by
  rw [crawlLoop.eq_def]
  simp [hb, hv, hf, hupd]

lemma crawlLoop_links {w : World} {mp : Int} {current : String}
    {visited : List String} {page : Page}
    {alln hqn alln' : List (String × String)}
    (dom : String) (rest : List String)
    (hb : (visited.length : Int) < mp) (hv : current ∉ visited)
    (hf : w.fetch current = some page)
    (hupd : updateCrawlState alln hqn page.candidates = (alln', [])) :
    crawlLoop w dom mp (current :: rest) visited hqn alln =
      ((crawlLoop w dom mp
          (rest ++ page.links.filter
            (fun l => same_domain w l dom && !(visited ++ [current]).contains l))
          (visited ++ [current]) [] alln').1,
        current :: (crawlLoop w dom mp
          (rest ++ page.links.filter
            (fun l => same_domain w l dom && !(visited ++ [current]).contains l))
          (visited ++ [current]) [] alln').2) := by
  rw [crawlLoop.eq_def]
  simp [hb, hv, hf, hupd]

/-! ### Claim theorems: phone normalization -/

/-- C3: `normalize_phone_digits(raw)` strips all non-digit characters; if
the resulting digit string starts with "81" and has more than 10 digits it
drops the leading "81" and prefixes "0"; it returns `none` exactly when
the final digit string has length < 10 or does not start with "0", and
otherwise returns that digit string paired with the whitespace-trimmed
original input as display. -/
theorem normalize_c3 (raw stripped final : String)
    (hstripped : stripped = String.mk (raw.data.filter Char.isDigit))
    (hfinal : final =
      if strStartsWith stripped "81" ∧ 10 < stripped.length then
        String.mk ('0' :: stripped.data.drop 2)
      else stripped) :
    (normalize_phone_digits raw = none ↔
      (final.length < 10 ∨ strStartsWith final "0" = false)) ∧
    (∀ d disp, normalize_phone_digits raw = some (d, disp) →
      d = final ∧ disp = pyStrip raw) := by
  subst hstripped hfinal
  have hdef : normalize_phone_digits raw =
      (if (if strStartsWith (String.mk (raw.data.filter Char.isDigit)) "81" ∧
            10 < (String.mk (raw.data.filter Char.isDigit)).length then
          String.mk ('0' :: (String.mk (raw.data.filter Char.isDigit)).data.drop 2)
        else String.mk (raw.data.filter Char.isDigit)).length < 10 then none
       else if ¬ strStartsWith (if strStartsWith (String.mk
            (raw.data.filter Char.isDigit)) "81" ∧
            10 < (String.mk (raw.data.filter Char.isDigit)).length then
          String.mk ('0' :: (String.mk (raw.data.filter Char.isDigit)).data.drop 2)
        else String.mk (raw.data.filter Char.isDigit)) "0" = true then none
       else some ((if strStartsWith (String.mk (raw.data.filter Char.isDigit)) "81" ∧
            10 < (String.mk (raw.data.filter Char.isDigit)).length then
          String.mk ('0' :: (String.mk (raw.data.filter Char.isDigit)).data.drop 2)
        else String.mk (raw.data.filter Char.isDigit)), pyStrip raw)) := rfl
  rw [hdef]
  set final := (if strStartsWith (String.mk (raw.data.filter Char.isDigit)) "81" ∧
      10 < (String.mk (raw.data.filter Char.isDigit)).length then
    String.mk ('0' :: (String.mk (raw.data.filter Char.isDigit)).data.drop 2)
  else String.mk (raw.data.filter Char.isDigit)) with hfin
  by_cases h1 : final.length < 10 <;> by_cases h2 : strStartsWith final "0" = true <;>
    simp [h1, h2]

/-- C3 witness: the too-short candidate "12-34" is rejected. -/
theorem normalize_c3_witness : normalize_phone_digits "12-34" = none :=
  (normalize_c3 "12-34" "1234" "1234" (by decide) (by decide)).1.mpr (by decide)

/-- C8: on digit-only strings of length at least 10 that start with "0",
`normalize_phone_digits` succeeds with the string itself as digits key,
and re-applying it to that digits output yields the same digits again
(idempotence on the digits component). -/
theorem normalize_c8 (s : String) (hd : ∀ c ∈ s.data, c.isDigit = true)
    (hlen : 10 ≤ s.length) (h0 : strStartsWith s "0" = true) :
    (normalize_phone_digits s).map Prod.fst = some s ∧
    ∀ d, (normalize_phone_digits s).map Prod.fst = some d →
      (normalize_phone_digits d).map Prod.fst = some d := by
  have hfilter : s.data.filter Char.isDigit = s.data :=
    List.filter_eq_self.mpr hd
  have hmk : String.mk s.data = s := by cases s; rfl
  have htake1 : s.data.take 1 = ['0'] := by
    have := of_decide_eq_true h0
    simpa [strStartsWith] using this
  have h81 : strStartsWith s "81" = false := by
    apply decide_eq_false
    intro hcon
    have htake2 : s.data.take 2 = ['8', '1'] := by
      simpa [strStartsWith] using hcon
    cases hs : s.data with
    | nil => rw [hs] at htake1; simp at htake1
    | cons c t =>
      rw [hs] at htake1 htake2
      simp [List.take] at htake1 htake2
      rw [htake1] at htake2
      exact absurd htake2.1 (by decide)
  have hc1 : ¬ (strStartsWith s "81" = true ∧ 10 < s.length) := by
    rintro ⟨ha, -⟩
    rw [h81] at ha
    cases ha
  have hnorm : normalize_phone_digits s = some (s, pyStrip s) := by
    simp only [normalize_phone_digits]
    rw [hfilter, hmk, if_neg hc1,
      if_neg (show ¬ s.length < 10 by omega),
      if_neg (not_not_intro h0)]
  constructor
  · rw [hnorm]; rfl
  · intro d hmap
    rw [hnorm] at hmap
    simp only [Option.map_some', Option.some.injEq] at hmap
    rw [← hmap, hnorm]
    rfl

/-- C8 witness: idempotence at the concrete digit string "0312345678". -/
theorem normalize_c8_witness :
    (normalize_phone_digits "0312345678").map Prod.fst = some "0312345678" :=
  (normalize_c8 "0312345678" (by decide) (by decide) (by decide)).1

/-! ### Claim theorems: crawl orchestration -/

/-- C1: when processing a fetched page leaves `hq_numbers` non-empty, the
crawl returns the display text of the first-inserted HQ entry immediately,
and no further page is fetched — the fetch trace ends at the current page
regardless of the remaining frontier `rest` and of the budget. -/
theorem crawl_c1 (w : World) (dom : String) (mp : Int) (current : String)
    (rest visited : List String)
    (hqn alln alln' hqrest : List (String × String)) (page : Page)
    (d disp : String)
    (hb : (visited.length : Int) < mp) (hv : current ∉ visited)
    (hf : w.fetch current = some page)
    (hupd : updateCrawlState alln hqn page.candidates =
      (alln', (d, disp) :: hqrest)) :
    crawlLoop w dom mp (current :: rest) visited hqn alln =
      (some disp, [current]) :=
  crawlLoop_hqfound dom rest hb hv hf hupd

/-- C1 witness: with another URL still queued and budget 5, the crawl
stops after the first page and returns its HQ number. -/
theorem crawl_c1_witness :
    crawlLoop wC1 "a" 5 ["https://a/", "https://a/x"] [] [] [] =
      (some "03-1234-5678", ["https://a/"]) :=
  crawl_c1 wC1 "a" 5 "https://a/" ["https://a/x"] [] [] []
    [("0312345678", "03-1234-5678")] [] ⟨[("03-1234-5678", true)], ["https://a/x"]⟩
    "0312345678" "03-1234-5678" (by decide) (by decide) rfl (by decide)

/-- C2: when the loop terminates by frontier exhaustion or page-budget
exhaustion with no HQ-classified number (`hq_numbers` empty), the result
is the display of the sole entry of `all_numbers` when it has exactly one
distinct digits key, and `None` when it has zero or at least two. -/
theorem crawl_c2 (w : World) (dom : String) (mp : Int)
    (queue visited : List String) (alln : List (String × String))
    (hterm : queue = [] ∨ mp ≤ (visited.length : Int)) :
    (∀ d disp, alln = [(d, disp)] →
      (crawlLoop w dom mp queue visited [] alln).1 = some disp) ∧
    (alln.length ≠ 1 → (crawlLoop w dom mp queue visited [] alln).1 = none) := by
  have hres : crawlLoop w dom mp queue visited [] alln =
      (fallbackNumber alln, []) := by
    rcases hterm with h | h
    · rw [h]
      exact crawlLoop_nil w dom mp visited [] alln
    · exact crawlLoop_exhausted w dom queue [] alln (by omega)
  rw [hres]
  constructor
  · rintro d disp rfl
    rfl
  · intro hne
    rcases alln with _ | ⟨⟨a, b⟩, _ | ⟨⟨c, e⟩, t⟩⟩
    · rfl
    · exact absurd (by simp : ([(a, b)] : List (String × String)).length = 1) hne
    · rfl

/-- C2 witness: frontier already empty, two distinct numbers collected →
absent; and with exactly one number collected → that number. -/
theorem crawl_c2_witness :
    (crawlLoop wC1 "a" 5 [] ["https://a/"] []
      [("0311111111", "03-1111-1111"), ("0322222222", "03-2222-2222")]).1 =
      none :=
  (crawl_c2 wC1 "a" 5 [] ["https://a/"]
    [("0311111111", "03-1111-1111"), ("0322222222", "03-2222-2222")]
    (Or.inl rfl)).2 (by decide)

/-- C6: in a step that discovers links, the frontier is extended exactly by
the discovered links that pass the filter, and every link passing the
filter has host equal to the target domain and is not in the visited set
(subdomain variants such as a `www.`-prefixed host differ as strings and
are therefore never enqueued). -/
theorem crawl_c6 (w : World) (dom : String) (mp : Int) (current : String)
    (rest visited : List String) (hqn alln alln' : List (String × String))
    (page : Page)
    (hb : (visited.length : Int) < mp) (hv : current ∉ visited)
    (hf : w.fetch current = some page)
    (hupd : updateCrawlState alln hqn page.candidates = (alln', [])) :
    (crawlLoop w dom mp (current :: rest) visited hqn alln =
      ((crawlLoop w dom mp (rest ++ page.links.filter
          (fun l => same_domain w l dom && !(visited ++ [current]).contains l))
        (visited ++ [current]) [] alln').1,
       current :: (crawlLoop w dom mp (rest ++ page.links.filter
          (fun l => same_domain w l dom && !(visited ++ [current]).contains l))
        (visited ++ [current]) [] alln').2)) ∧
    (∀ l ∈ page.links.filter
        (fun l => same_domain w l dom && !(visited ++ [current]).contains l),
      w.netloc l = dom ∧ l ∉ visited ++ [current]) := by
  refine ⟨crawlLoop_links dom rest hb hv hf hupd, ?_⟩
  intro l hl
  rw [List.mem_filter, Bool.and_eq_true] at hl
  refine ⟨?_, ?_⟩
  · have := hl.2.1
    simpa [same_domain] using this
  · have := hl.2.2
    simpa using this

/-- C6 witness: the same-domain unvisited link "https://a/x" passes the
enqueue filter and indeed has the target host and is unvisited (while the
`www.`-prefixed and off-domain links fail the filter). -/
theorem crawl_c6_witness :
    wC6.netloc "https://a/x" = "a" ∧
      "https://a/x" ∉ ([] : List String) ++ ["https://a/"] :=
  (crawl_c6 wC6 "a" 5 "https://a/" [] [] [] [] []
    ⟨[], ["https://a/x", "https://www.a/y", "https://b/z"]⟩
    (by decide) (by decide) rfl (by decide)).2 "https://a/x" (by decide)

/-- C10: a zero or negative page budget makes `crawl_for_hq_phone` fetch
nothing and return `None`. -/
theorem crawl_c10 (w : World) (start_url : String) (mp : Int)
    (hmp : mp ≤ 0) : crawl_for_hq_phone w start_url mp = (none, []) := by
  unfold crawl_for_hq_phone
  cases hn : w.normalize start_url with
  | none => rfl
  | some start =>
    show crawlLoop w (w.netloc start) mp [start] [] [] [] = (none, [])
    exact crawlLoop_exhausted w (w.netloc start) [start] [] []
      (by simp only [List.length_nil, Nat.cast_zero]; omega)

/-- C10 witness: budget 0 yields an absent result and an empty fetch
trace. -/
theorem crawl_c10_witness :
    crawl_for_hq_phone wC1 "https://a/" 0 = (none, []) :=
  crawl_c10 wC1 "https://a/" 0 (by decide)

lemma crawlLoop_trace_le (w : World) (dom : String) (mp : Int)
    (queue visited : List String) (hqn alln : List (String × String)) :
    (crawlLoop w dom mp queue visited hqn alln).2.length ≤
      (mp - visited.length).toNat := by
  induction queue, visited, hqn, alln using crawlLoop.induct w dom mp with
  | case1 visited hqn alln =>
    rw [crawlLoop_nil]
    simp
  | case2 visited hqn alln current rest hb hv ih =>
    rw [crawlLoop_visited w dom mp rest hqn alln hv]
    exact ih
  | case3 visited hqn alln current rest hb hv hf ih =>
    rw [crawlLoop_nofetch dom rest hqn alln hb hv hf]
    simp only [List.length_cons]
    simp only [List.length_append, List.length_cons, List.length_nil] at ih
    omega
  | case4 visited hqn alln current rest hb hv page hf st d0 disp0 tail0 hst =>
    have hupd : updateCrawlState alln hqn page.candidates =
        ((updateCrawlState alln hqn page.candidates).1,
          (d0, disp0) :: tail0) := by
      rw [← hst]
    rw [crawlLoop_hqfound dom rest hb hv hf hupd]
    simp only [List.length_cons, List.length_nil]
    omega
  | case5 visited hqn alln current rest hb hv page hf st hst links ih =>
    have hupd : updateCrawlState alln hqn page.candidates =
        ((updateCrawlState alln hqn page.candidates).1, []) := by
      rw [← hst]
    have hst2 : (updateCrawlState alln hqn page.candidates).2 = [] := hst
    have ih2 : (crawlLoop w dom mp
        (rest ++ page.links.filter
          (fun l => same_domain w l dom && !(visited ++ [current]).contains l))
        (visited ++ [current])
        (updateCrawlState alln hqn page.candidates).2
        (updateCrawlState alln hqn page.candidates).1).2.length ≤
        (mp - ((visited ++ [current]).length : Int)).toNat := ih
    rw [hst2] at ih2
    rw [crawlLoop_links dom rest hb hv hf hupd]
    simp only [List.length_cons]
    simp only [List.length_append, List.length_cons, List.length_nil] at ih2
    omega
  | case6 visited hqn alln current rest hb =>
    rw [crawlLoop_exhausted w dom _ hqn alln hb]
    simp

/-- C5: the crawl never fetches (and hence never marks visited) more than
`max_pages` URLs, whatever the link graph — the fetch trace, which lists
exactly the URLs added to the visited set, is bounded by `max_pages` — and
dequeuing an already-visited URL leaves the computation (in particular the
visited set and the fetch trace) unchanged apart from dropping that queue
entry. -/
theorem crawl_c5 :
    (∀ (w : World) (start_url : String) (mp : Int),
      (crawl_for_hq_phone w start_url mp).2.length ≤ mp.toNat) ∧
    (∀ (w : World) (dom : String) (mp : Int) (current : String)
        (rest visited : List String) (hqn alln : List (String × String)),
      current ∈ visited →
        crawlLoop w dom mp (current :: rest) visited hqn alln =
          crawlLoop w dom mp rest visited hqn alln) := by
  constructor
  · intro w s mp
    unfold crawl_for_hq_phone
    cases hn : w.normalize s with
    | none => simp
    | some start =>
      have h := crawlLoop_trace_le w (w.netloc start) mp [start] [] [] []
      simpa using h
  · intro w dom mp current rest visited hqn alln hv
    exact crawlLoop_visited w dom mp rest hqn alln hv

/-- C5 witness: a self-loop page; with budget 2 the crawl fetches at most
2 pages, and re-dequeuing the already-visited start URL does not change
the crawl. -/
theorem crawl_c5_witness :
    (crawl_for_hq_phone wC1 "https://a/" 2).2.length ≤ 2 ∧
      crawlLoop wC1 "a" 2 ["https://a/", "https://a/x"] ["https://a/"] [] [] =
        crawlLoop wC1 "a" 2 ["https://a/x"] ["https://a/"] [] [] :=
  ⟨crawl_c5.1 wC1 "https://a/" 2,
   crawl_c5.2 wC1 "a" 2 "https://a/" ["https://a/x"] ["https://a/"] [] []
     (by decide)⟩

/-! ### Claim theorems: the candidate registry -/

lemma HQmarked_mono {reg : List (String × Entry)} {digits : String}
    (h : HQmarked reg digits) (tel : String) (b : Bool) :
    HQmarked (registerStep reg tel b) digits := by
  obtain ⟨⟨q, hq, hqk⟩, hall⟩ := h
  unfold registerStep
  cases hn : normalize_phone_digits tel with
  | none => exact ⟨⟨q, hq, hqk⟩, hall⟩
  | some pr =>
    obtain ⟨d', disp'⟩ := pr
    have hreg1 : HQmarked
        (if reg.any (fun p => p.1 = d') then reg
         else reg ++ [(d', ⟨disp', false⟩)]) digits := by
      by_cases hk : (reg.any (fun p => p.1 = d')) = true
      · rw [if_pos hk]
        exact ⟨⟨q, hq, hqk⟩, hall⟩
      · rw [if_neg hk]
        have hne : d' ≠ digits := by
          intro he
          subst he
          exact hk (List.any_eq_true.mpr ⟨q, hq, by simp [hqk]⟩)
        refine ⟨⟨q, List.mem_append_left _ hq, hqk⟩, ?_⟩
        intro p hp hpk
        rcases List.mem_append.mp hp with hin | hin
        · exact hall p hin hpk
        · simp only [List.mem_singleton] at hin
          subst hin
          exact absurd hpk hne
    obtain ⟨⟨q1, hq1, hq1k⟩, hall1⟩ := hreg1
    cases b with
    | false => exact ⟨⟨q1, hq1, hq1k⟩, hall1⟩
    | true =>
      simp only [if_pos]
      constructor
      · refine ⟨(if q1.1 = d' then (q1.1, ⟨disp', true⟩) else q1), ?_, ?_⟩
        · exact List.mem_map_of_mem _ hq1
        · by_cases hqd : q1.1 = d'
          · rw [if_pos hqd]
            exact hq1k
          · rw [if_neg hqd]
            exact hq1k
      · intro p hp hpk
        obtain ⟨p0, hp0, hfp⟩ := List.mem_map.mp hp
        by_cases h0 : p0.1 = d'
        · rw [if_pos h0] at hfp
          rw [← hfp]
        · rw [if_neg h0] at hfp
          subst hfp
          exact hall1 p0 hp0 hpk

lemma HQmarked_runRegister {reg : List (String × Entry)} {digits : String}
    (h : HQmarked reg digits) (events : List (String × Bool)) :
    HQmarked (runRegister reg events) digits := by
  induction events generalizing reg with
  | nil => exact h
  | cons e rest ih =>
    simp only [runRegister, List.foldl_cons]
    exact ih (HQmarked_mono h e.1 e.2)

lemma HQmarked_registerStep_true {reg : List (String × Entry)}
    {tel digits disp : String}
    (hn : normalize_phone_digits tel = some (digits, disp)) :
    HQmarked (registerStep reg tel true) digits := by
  unfold registerStep
  rw [hn]
  simp only [if_pos]
  have hkey : ∃ p ∈ (if reg.any (fun p => p.1 = digits) then reg
      else reg ++ [(digits, ⟨disp, false⟩)]), p.1 = digits := by
    by_cases hk : (reg.any (fun p => p.1 = digits)) = true
    · rw [if_pos hk]
      obtain ⟨p, hp, hpd⟩ := List.any_eq_true.mp hk
      exact ⟨p, hp, of_decide_eq_true hpd⟩
    · rw [if_neg hk]
      exact ⟨(digits, ⟨disp, false⟩), by simp, rfl⟩
  obtain ⟨p, hp, hpd⟩ := hkey
  constructor
  · refine ⟨(p.1, ⟨disp, true⟩), ?_, hpd⟩
    have heq : (fun q : String × Entry =>
        if q.1 = digits then (q.1, Entry.mk disp true) else q) p =
        (p.1, ⟨disp, true⟩) := by
      simp [hpd]
    exact heq ▸ List.mem_map_of_mem _ hp
  · intro q hq hqd
    obtain ⟨q0, hq0, hfq⟩ := List.mem_map.mp hq
    by_cases h0 : q0.1 = digits
    · rw [if_pos h0] at hfq
      rw [← hfq]
    · rw [if_neg h0] at hfq
      subst hfq
      exact absurd hqd h0

/-- C4: once a register call marks a digits key HQ (all entries under the
key carry `is_hq = true`), every later register call — HQ or not — leaves
it marked, and the `(display, is_hq)` pair eventually returned for that
key by `extract_phone_candidates` carries `is_hq = true`. -/
theorem registry_c4 :
    (∀ (reg : List (String × Entry)) (tel digits disp : String),
      normalize_phone_digits tel = some (digits, disp) →
      HQmarked (registerStep reg tel true) digits) ∧
    (∀ (reg : List (String × Entry)) (events : List (String × Bool))
        (digits : String),
      HQmarked reg digits → HQmarked (runRegister reg events) digits) ∧
    (∀ (events : List (String × Bool)) (digits : String),
      HQmarked (runRegister [] events) digits →
      ∀ p ∈ runRegister [] events, p.1 = digits →
        (p.2.display, true) ∈ extract_phone_candidates events) := by
  refine ⟨fun reg tel digits disp hn => HQmarked_registerStep_true hn,
    fun reg events digits h => HQmarked_runRegister h events, ?_⟩
  intro events digits h p hp hpd
  have hhq : p.2.is_hq = true := h.2 p hp hpd
  have hmem : (p.2.display, p.2.is_hq) ∈ extract_phone_candidates events :=
    List.mem_map_of_mem _ hp
  rw [hhq] at hmem
  exact hmem

/-- C4 witness: a key registered HQ stays HQ across a later non-HQ
registration of the same number in a different spelling. -/
theorem registry_c4_witness :
    HQmarked (runRegister [("0312345678", ⟨"03-1234-5678", true⟩)]
      [("03 1234 5678", false)]) "0312345678" :=
  registry_c4.2.1 [("0312345678", ⟨"03-1234-5678", true⟩)]
    [("03 1234 5678", false)] "0312345678" (by decide)

lemma goodReg_step {reg : List (String × Entry)}
    (hg : ∀ p ∈ reg,
      normalize_phone_digits p.2.display = some (p.1, p.2.display))
    (tel : String) (b : Bool) :
    ∀ p ∈ registerStep reg tel b,
      normalize_phone_digits p.2.display = some (p.1, p.2.display) := by
  intro p hp
  simp only [registerStep] at hp
  cases hn : normalize_phone_digits tel with
  | none =>
    rw [hn] at hp
    exact hg p hp
  | some pr =>
    obtain ⟨d', disp'⟩ := pr
    rw [hn] at hp
    simp only at hp
    have hdisp : normalize_phone_digits disp' = some (d', disp') :=
      normalize_display hn
    have hreg1 : ∀ q ∈ (if reg.any (fun p => p.1 = d') then reg
        else reg ++ [(d', ⟨disp', false⟩)]),
        normalize_phone_digits q.2.display = some (q.1, q.2.display) := by
      intro q hq
      split at hq
      · exact hg q hq
      · rcases List.mem_append.mp hq with hin | hin
        · exact hg q hin
        · simp only [List.mem_singleton] at hin
          subst hin
          exact hdisp
    cases b with
    | false =>
      simp only [Bool.false_eq_true, if_false] at hp
      exact hreg1 p hp
    | true =>
      simp only [if_pos] at hp
      obtain ⟨q, hq, hfq⟩ := List.mem_map.mp hp
      by_cases h0 : q.1 = d'
      · simp only [h0, if_true] at hfq
        subst hfq
        exact hdisp
      · rw [if_neg h0] at hfq
        subst hfq
        exact hreg1 q hq

lemma goodReg_run (events : List (String × Bool)) :
    ∀ reg : List (String × Entry),
      (∀ p ∈ reg,
        normalize_phone_digits p.2.display = some (p.1, p.2.display)) →
      ∀ p ∈ runRegister reg events,
        normalize_phone_digits p.2.display = some (p.1, p.2.display) := by
  induction events with
  | nil => exact fun reg hg => hg
  | cons e rest ih =>
    intro reg hg
    simp only [runRegister, List.foldl_cons]
    exact ih (registerStep reg e.1 e.2) (goodReg_step hg e.1 e.2)

/-- C9: every registry entry produced by `extract_phone_candidates` has a
display text on which `normalize_phone_digits` succeeds and yields exactly
the digits key under which the entry is registered; consequently, in the
per-candidate loop of `crawl_for_hq_phone`, re-normalizing a returned
display never fails, so the silent-discard branch is unreachable for
candidates coming from `extract_phone_candidates`. -/
theorem registry_c9 (events : List (String × Bool)) :
    (∀ p ∈ runRegister [] events,
      normalize_phone_digits p.2.display = some (p.1, p.2.display)) ∧
    (∀ c ∈ extract_phone_candidates events,
      normalize_phone_digits c.1 ≠ none) := by
  have hmain := goodReg_run events [] (by intro p hp; cases hp)
  refine ⟨hmain, ?_⟩
  intro c hc
  obtain ⟨p, hp, hpc⟩ := List.mem_map.mp hc
  have := hmain p hp
  rw [← hpc]
  simp only
  rw [this]
  exact Option.some_ne_none _

/-- C9 witness: the entry registered for "03-1234-5678" re-normalizes to
its own digits key. -/
theorem registry_c9_witness :
    normalize_phone_digits
      (("0312345678", Entry.mk "03-1234-5678" true) : String × Entry).2.display =
      some ("0312345678", "03-1234-5678") :=
  (registry_c9 [("03-1234-5678", true)]).1
    ("0312345678", Entry.mk "03-1234-5678" true) (by decide)

/-! ### Claim theorem: keyword bank loading -/

/-- C7: `load_keyword_bank` trims and lower-cases each term and discards
terms whose stripped form is empty; it fails (raises `ValueError`,
modelled as `Except.error`) exactly when the resulting primary-term set is
empty; and on success the scan-term set is the union of the primary-term
set and the support-term set. -/
theorem keyword_c7 (primary support : List String) :
    ((load_keyword_bank primary support).toOption = none ↔
      prepTerms primary = ∅) ∧
    (∀ kb, load_keyword_bank primary support = .ok kb →
      kb.primary_terms = prepTerms primary ∧
      kb.scan_terms = prepTerms primary ∪ prepTerms support) ∧
    (∀ t, t ∈ prepTerms primary ↔
      ∃ raw ∈ primary, pyStrip raw ≠ "" ∧ t = pyLower (pyStrip raw)) := by
  refine ⟨?_, ?_, ?_⟩
  · by_cases h : prepTerms primary = ∅ <;>
      simp [load_keyword_bank, h, Except.toOption]
  · intro kb hkb
    simp only [load_keyword_bank] at hkb
    split at hkb
    · cases hkb
    · injection hkb with h
      subst h
      exact ⟨rfl, rfl⟩
  · intro t
    unfold prepTerms
    rw [List.mem_toFinset, List.mem_map]
    constructor
    · rintro ⟨a, ha, rfl⟩
      rw [List.mem_filter] at ha
      exact ⟨a, ha.1, by simpa using ha.2, rfl⟩
    · rintro ⟨raw, hraw, hne, rfl⟩
      exact ⟨raw, List.mem_filter.mpr ⟨hraw, by simpa using hne⟩, rfl⟩

/-- C7 witness: the term " HQ " is stripped and lower-cased into the
primary-term set. -/
theorem keyword_c7_witness : "hq" ∈ prepTerms [" HQ "] :=
  ((keyword_c7 [" HQ "] []).2.2 "hq").mpr
    ⟨" HQ ", by decide, by decide, by decide⟩
